import Mathlib

set_option maxRecDepth 20000

/-! Verification of the CSM commit monitor (`main.go`) against its
natural-language specification.

The embedding below is a shallow translation of the Go source.  External
collaborators — the GitHub HTTP API, the Discord webhook delivery channel and
the config-file persistence — are passed in as explicit function parameters
(`fetch`, `deliver`) or modeled as the pure state they carry (`Config`);
everything else is translated from the source.  Go panics (string slicing out
of bounds) are modeled with `Option`, fallible operations with `Except`. -/

deriving instance DecidableEq for Except

/-- Go struct `Repository` (main.go): one monitored GitHub repository. -/
structure Repository where
  URL : String
  Owner : String
  Repo : String
  Branch : String
  LastCommit : String
  Note : String
  deriving DecidableEq

/-- Go struct `GitHubCommit` (main.go): one commit record as decoded from the
GitHub API.  The nested JSON structure is flattened; the author date is carried
but never used by the program logic. -/
structure GitHubCommit where
  SHA : String
  AuthorName : String
  AuthorDate : String
  Message : String
  HTMLURL : String
  deriving DecidableEq

/-- Go anonymous struct holding the Discord settings inside `Config`, and the
parameter bundle of `sendDiscordNotification`. -/
structure DiscordConfig where
  Template : String
  Username : String
  AvatarURL : String
  deriving DecidableEq

/-- Go struct `Config` (main.go): the persisted application state. -/
structure Config where
  Repositories : List Repository
  Discord : DiscordConfig
  deriving DecidableEq

/-- Go struct `DiscordWebhook` (main.go): the payload POSTed to the webhook. -/
structure DiscordWebhook where
  Content : String
  Username : String
  AvatarURL : String
  deriving DecidableEq

/-- Go local struct `TemplateData` inside `sendDiscordNotification`. -/
structure TemplateData where
  Owner : String
  Repo : String
  Branch : String
  Note : String
  URL : String
  Content : String
  deriving DecidableEq

/-- Go `getDefaultDiscordConfig` (main.go): the built-in Discord defaults.  The
braces of the Go template text are written with hexadecimal escapes. -/
def getDefaultDiscordConfig : DiscordConfig :=
  { Template := "🚨 **New Commits Detected!**\n\n**Repository**: \x7b\x7b.Owner\x7d\x7d/\x7b\x7b.Repo\x7d\x7d\n**Branch**: \x7b\x7b.Branch\x7d\x7d\n\x7b\x7bif .Note\x7d\x7d**Note**: \x7b\x7b.Note\x7d\x7d\x7b\x7bend\x7d\x7d\n**Repository URL**: \x7b\x7b.URL\x7d\x7d\n\n**New Commits**:\n\x7b\x7b.Content\x7d\x7d\n\n*Monitored by CSM - Commit Monitor*"
    Username := "CSM Commit Monitor"
    AvatarURL := "https://i.ibb.co/JH5GnN3/Unknown-8.jpg" }

/-! Notification composer (`sendDiscordNotification`).

Go renders the configured template with `text/template`.  The engine is
embedded here for the sublanguage the program's templates live in: literal
text, the six field actions of `TemplateData`, and a non-nested
`if .Note` / `end` conditional (truthy iff the string is non-empty, as in Go).
Any other action, and any unclosed action, is rejected — observably the same
outcome as Go, where such templates fail at `Parse` or `Execute` and
`sendDiscordNotification` propagates the error either way. -/

/-- The six fields of `TemplateData` addressable from a template. -/
inductive TField where
  | owner
  | repo
  | branch
  | note
  | url
  | content
  deriving DecidableEq

/-- A template element that may appear inside an `if .Note` body. -/
inductive TLeaf where
  | lit : String → TLeaf
  | field : TField → TLeaf
  deriving DecidableEq

/-- A top-level template element. -/
inductive TNode where
  | leaf : TLeaf → TNode
  | condNote : List TLeaf → TNode
  deriving DecidableEq

/-- A lexed template item: literal text or the inside of a brace action. -/
inductive TItem where
  | lit : String → TItem
  | act : String → TItem
  deriving DecidableEq

/-- The opening brace character. -/
def lbrace : Char := Char.ofNat 123

/-- The closing brace character. -/
def rbrace : Char := Char.ofNat 125

/-- Scan an action body up to the closing double brace; `none` when the action
is never closed. -/
def splitAction : List Char → Option (List Char × List Char)
  | c1 :: c2 :: rest =>
    if c1 = rbrace ∧ c2 = rbrace then some ([], rest)
    else
      match splitAction (c2 :: rest) with
      | some (a, r) => some (c1 :: a, r)
      | none => none
  | _ => none

/-- Prepend a literal character, merging with a leading literal item. -/
def consLit (c : Char) : List TItem → List TItem
  | TItem.lit s :: rest => TItem.lit (String.mk (c :: s.data)) :: rest
  | items => TItem.lit (String.mk [c]) :: items

/-- Fueled template lexer; the fuel is a technical device for termination and
one unit per input character plus one always suffices. -/
def lexTemplateAux : Nat → List Char → Except String (List TItem)
  | 0, _ => Except.error "template lexer out of fuel"
  | _ + 1, [] => Except.ok []
  | _ + 1, [c] => Except.ok [TItem.lit (String.mk [c])]
  | fuel + 1, c1 :: c2 :: rest =>
    if c1 = lbrace ∧ c2 = lbrace then
      match splitAction rest with
      | none => Except.error "unclosed action in template"
      | some (a, r) =>
        match lexTemplateAux fuel r with
        | Except.ok items => Except.ok (TItem.act (String.mk a) :: items)
        | Except.error e => Except.error e
    else
      match lexTemplateAux fuel (c2 :: rest) with
      | Except.ok items => Except.ok (consLit c1 items)
      | Except.error e => Except.error e

/-- Lex a template string into literal and action items. -/
def lexTemplate (tmpl : String) : Except String (List TItem) :=
  lexTemplateAux (tmpl.data.length + 1) tmpl.data

/-- Recognize the field actions of `TemplateData`. -/
def parseField : String → Option TField
  | ".Owner" => some TField.owner
  | ".Repo" => some TField.repo
  | ".Branch" => some TField.branch
  | ".Note" => some TField.note
  | ".URL" => some TField.url
  | ".Content" => some TField.content
  | _ => none

/-- Parse the body of an `if .Note` action up to its `end`, returning the body
and the remaining items. -/
def parseBody : List TItem → Except String (List TLeaf × List TItem)
  | [] => Except.error "unclosed if action in template"
  | TItem.lit s :: rest =>
    match parseBody rest with
    | Except.ok (body, rem) => Except.ok (TLeaf.lit s :: body, rem)
    | Except.error e => Except.error e
  | TItem.act a :: rest =>
    if a = "end" then Except.ok ([], rest)
    else
      match parseField a with
      | some f =>
        match parseBody rest with
        | Except.ok (body, rem) => Except.ok (TLeaf.field f :: body, rem)
        | Except.error e => Except.error e
      | none => Except.error ("unsupported action in template: " ++ a)

/-- Fueled parser for top-level template items. -/
def parseNodesAux : Nat → List TItem → Except String (List TNode)
  | 0, _ => Except.error "template parser out of fuel"
  | _ + 1, [] => Except.ok []
  | fuel + 1, TItem.lit s :: rest =>
    match parseNodesAux fuel rest with
    | Except.ok nodes => Except.ok (TNode.leaf (TLeaf.lit s) :: nodes)
    | Except.error e => Except.error e
  | fuel + 1, TItem.act a :: rest =>
    if a = "end" then Except.error "unexpected end action in template"
    else if a = "if .Note" then
      match parseBody rest with
      | Except.ok (body, rem) =>
        match parseNodesAux fuel rem with
        | Except.ok nodes => Except.ok (TNode.condNote body :: nodes)
        | Except.error e => Except.error e
      | Except.error e => Except.error e
    else
      match parseField a with
      | some f =>
        match parseNodesAux fuel rest with
        | Except.ok nodes => Except.ok (TNode.leaf (TLeaf.field f) :: nodes)
        | Except.error e => Except.error e
      | none => Except.error ("unsupported action in template: " ++ a)

/-- Look up a template field in the data record. -/
def fieldValue (data : TemplateData) : TField → String
  | TField.owner => data.Owner
  | TField.repo => data.Repo
  | TField.branch => data.Branch
  | TField.note => data.Note
  | TField.url => data.URL
  | TField.content => data.Content

/-- Evaluate one leaf element. -/
def evalLeaf (data : TemplateData) : TLeaf → String
  | TLeaf.lit s => s
  | TLeaf.field f => fieldValue data f

/-- Evaluate a sequence of leaf elements. -/
def evalLeaves (data : TemplateData) : List TLeaf → String
  | [] => ""
  | l :: ls => evalLeaf data l ++ evalLeaves data ls

/-- Evaluate one top-level element; `if .Note` is truthy iff the note string is
non-empty, as in Go templates. -/
def evalNode (data : TemplateData) : TNode → String
  | TNode.leaf l => evalLeaf data l
  | TNode.condNote body => if data.Note = "" then "" else evalLeaves data body

/-- Evaluate a sequence of top-level elements. -/
def evalNodes (data : TemplateData) : List TNode → String
  | [] => ""
  | n :: ns => evalNode data n ++ evalNodes data ns

/-- Parse and execute a template against the data record, as Go's
`template.Parse` followed by `Execute` inside `sendDiscordNotification`. -/
def renderTemplate (tmpl : String) (data : TemplateData) : Except String String :=
  match lexTemplate tmpl with
  | Except.error e => Except.error e
  | Except.ok items =>
    match parseNodesAux (items.length + 1) items with
    | Except.error e => Except.error e
    | Except.ok nodes => Except.ok (evalNodes data nodes)

/-- Go `commit.SHA[:8]` inside `sendDiscordNotification`: Go string slicing
panics when the string is shorter than eight, modeled as `none`. -/
def shaShort (s : String) : Option String :=
  if s.length < 8 then none else some (String.mk (s.data.take 8))

/-- Go `strings.Split(msg, "\n")[0]`: the first line of a commit message. -/
def firstLine (s : String) : String :=
  (s.splitOn "\n").headD ""

/-- One bullet line of the commit summary, from the `fmt.Sprintf` inside
`sendDiscordNotification`; `none` models the slicing panic on a short SHA. -/
def formatCommitLine (c : GitHubCommit) : Option String :=
  match shaShort c.SHA with
  | none => none
  | some sha8 =>
    some ("• **" ++ sha8 ++ "** by " ++ c.AuthorName ++ "\n  " ++
      firstLine c.Message ++ "\n  [View Commit](" ++ c.HTMLURL ++ ")")

/-- The commit-formatting loop of `sendDiscordNotification`; `none` models the
panic raised on the first commit whose SHA is too short. -/
def formatCommits : List GitHubCommit → Option (List String)
  | [] => some []
  | c :: cs =>
    match formatCommitLine c with
    | none => none
    | some s =>
      match formatCommits cs with
      | none => none
      | some ss => some (s :: ss)

/-- The template data built by `sendDiscordNotification` from the repository
and the formatted commit lines. -/
def buildTemplateData (repo : Repository) (lines : List String) : TemplateData :=
  { Owner := repo.Owner
    Repo := repo.Repo
    Branch := repo.Branch
    Note := repo.Note
    URL := repo.URL
    Content := String.intercalate "\n\n" lines }

/-- The pure composition part of Go `sendDiscordNotification`: substitute the
default template for an empty one, format the commits (possibly panicking,
`none`), then render the template (possibly failing, `Except.error`). -/
def composeNotification (discord : DiscordConfig) (repo : Repository)
    (commits : List GitHubCommit) : Option (Except String String) :=
  let tmpl := if discord.Template = "" then getDefaultDiscordConfig.Template
              else discord.Template
  match formatCommits commits with
  | none => none
  | some lines => some (renderTemplate tmpl (buildTemplateData repo lines))

/-- Go `sendDiscordNotification`: compose the message and, on success, hand the
payload to the external webhook collaborator `deliver`.  The outer `none`
models the slicing panic; the delivery outcome is propagated to the caller. -/
def sendDiscordNotification (deliver : DiscordWebhook → Except String Unit)
    (discord : DiscordConfig) (repo : Repository)
    (commits : List GitHubCommit) : Option (Except String Unit) :=
  match composeNotification discord repo commits with
  | none => none
  | some (Except.error e) => some (Except.error e)
  | some (Except.ok msg) =>
    some (deliver { Content := msg, Username := discord.Username,
                    AvatarURL := discord.AvatarURL })

/-! Resource locator (`parseGithubRepoURL`).

Go applies `strings.TrimSuffix(url, "/")` and then searches with the Go regexp
(leftmost-first semantics)

  github\.com/([^/]+)/([^/]+)(?:/tree/([^/]+))?

via `FindStringSubmatch`, i.e. the pattern may match anywhere in the string.
The character classes cannot cross a slash, so greedy matching never
backtracks: each submatch is the maximal slash-free run, and the optional
group participates exactly when `/tree/` plus a non-empty slash-free segment
immediately follows the repo segment.  The search below mirrors this: try the
pattern at every position from the left, taking the first success. -/

/-- Drop a literal character pattern from the front of a string; `some` exactly
when the pattern is a prefix. -/
def dropPattern : List Char → List Char → Option (List Char)
  | [], s => some s
  | _ :: _, [] => none
  | p :: ps, c :: cs => if c = p then dropPattern ps cs else none

/-- The regexp character class of the Go pattern: any character but a slash. -/
def notSlash : Char → Bool :=
  fun c => c ≠ '/'

/-- The optional third submatch: `/tree/` plus a non-empty slash-free branch
segment, immediately after the repo segment. -/
def parseBranchOpt (rest4 : List Char) : Option (List Char) :=
  match dropPattern ("/tree/").data rest4 with
  | some rest5 =>
    if rest5.takeWhile notSlash = [] then none
    else some (rest5.takeWhile notSlash)
  | none => none

/-- After the owner segment: a slash, then a non-empty slash-free repo
segment, then optionally the branch submatch. -/
def matchTail (rest2 owner : List Char) : Option (List Char × List Char × Option (List Char)) :=
  match rest2 with
  | '/' :: rest3 =>
    if rest3.takeWhile notSlash = [] then none
    else some (owner, rest3.takeWhile notSlash,
      parseBranchOpt (rest3.dropWhile notSlash))
  | _ => none

/-- After the literal `github.com/`: a non-empty slash-free owner segment,
then the tail. -/
def matchAfterPat (rest0 : List Char) : Option (List Char × List Char × Option (List Char)) :=
  if rest0.takeWhile notSlash = [] then none
  else matchTail (rest0.dropWhile notSlash) (rest0.takeWhile notSlash)

/-- Try the Go pattern anchored at the head of `s`, returning owner, repo and
the optional branch submatch. -/
def matchGithubAt (s : List Char) : Option (List Char × List Char × Option (List Char)) :=
  match dropPattern ("github.com/").data s with
  | none => none
  | some rest0 => matchAfterPat rest0

/-- Leftmost-first search: try the anchored pattern at each position. -/
def findGithubMatch : List Char → Option (List Char × List Char × Option (List Char))
  | [] => none
  | c :: cs =>
    match matchGithubAt (c :: cs) with
    | some r => some r
    | none => findGithubMatch cs

/-- Go `strings.TrimSuffix(url, "/")`: remove one trailing slash if present. -/
def trimSlash (s : String) : String :=
  if s.data.getLast? = some '/' then String.mk s.data.dropLast else s

/-- Go `parseGithubRepoURL`: extract owner, repo and branch, the branch
defaulting to main when the optional submatch is absent. -/
def parseGithubRepoURL (url : String) : Except String (String × String × String) :=
  match findGithubMatch (trimSlash url).data with
  | none => Except.error "invalid GitHub repository URL format"
  | some (owner, repo, branchOpt) =>
    Except.ok (String.mk owner, String.mk repo,
      (branchOpt.map String.mk).getD "main")

/-! Entry lifecycle manager and change detector.  The GitHub commits-listing
call `fetchLatestCommits` is the external HTTP collaborator: it is passed in
as a function from owner, repo and branch to a fetch outcome. -/

/-- The commit-collecting loop of Go `checkForNewCommits`: walk the
newest-first list, collecting until the stored last commit is encountered. -/
def collectNewCommits (lastCommit : String) : List GitHubCommit → List GitHubCommit
  | [] => []
  | c :: rest =>
    if c.SHA = lastCommit then []
    else c :: collectNewCommits lastCommit rest

/-- Go `checkForNewCommits`: fetch the latest commits and collect the new
ones; a fetch failure is propagated, an empty listing yields no commits. -/
def checkForNewCommits (fetch : String → String → String → Except String (List GitHubCommit))
    (repo : Repository) : Except String (List GitHubCommit) :=
  match fetch repo.Owner repo.Repo repo.Branch with
  | Except.error e => Except.error e
  | Except.ok commits =>
    if commits.length = 0 then Except.ok []
    else Except.ok (collectNewCommits repo.LastCommit commits)

/-- Go `addRepository` acting on the loaded configuration: reject duplicates,
parse the URL, fetch once, reject an empty history, then append the new entry.
Persistence happens only on the success path, so an error leaves the stored
collection untouched. -/
def addRepository (fetch : String → String → String → Except String (List GitHubCommit))
    (config : Config) (url note : String) : Except String Config :=
  if config.Repositories.any (fun r => r.URL = url) then
    Except.error "repository already being monitored"
  else
    match parseGithubRepoURL url with
    | Except.error e => Except.error e
    | Except.ok (owner, repo, branch) =>
      match fetch owner repo branch with
      | Except.error e => Except.error e
      | Except.ok commits =>
        match commits with
        | [] => Except.error "no commits found in repository"
        | c :: _ =>
          Except.ok { config with
            Repositories := config.Repositories ++
              [{ URL := url, Owner := owner, Repo := repo, Branch := branch,
                 LastCommit := c.SHA, Note := note }] }

/-- The configuration that is on disk after an add attempt: `saveConfig` runs
only on the success path of `addRepository`. -/
def persistedAfterAdd (fetch : String → String → String → Except String (List GitHubCommit))
    (config : Config) (url note : String) : Config :=
  match addRepository fetch config url note with
  | Except.error _ => config
  | Except.ok config2 => config2

/-- Go `removeRepository` acting on the loaded configuration: filter the entry
out, failing when the URL is absent. -/
def removeRepository (config : Config) (url : String) : Except String Config :=
  let newRepos := config.Repositories.filter (fun r => r.URL ≠ url)
  let found := config.Repositories.any (fun r => r.URL = url)
  if !found then Except.error "repository not found in monitored list"
  else Except.ok { config with Repositories := newRepos }

/-- One iteration of the loop in Go `checkRepositories` for one repository:
a check failure is logged and the entry skipped; on new commits the
notification is attempted (its outcome only logged) and the entry's cursor is
set to the newest commit.  `none` models the slicing panic aborting the whole
run; the returned list records the payloads handed to the webhook. -/
def pollEntry (fetch : String → String → String → Except String (List GitHubCommit))
    (deliver : DiscordWebhook → Except String Unit)
    (discord : DiscordConfig) (repo : Repository) :
    Option (Repository × List DiscordWebhook) :=
  match checkForNewCommits fetch repo with
  | Except.error _ => some (repo, [])
  | Except.ok [] => some (repo, [])
  | Except.ok (c :: rest) =>
    match composeNotification discord repo (c :: rest) with
    | none => none
    | some (Except.error _) => some ({ repo with LastCommit := c.SHA }, [])
    | some (Except.ok msg) =>
      let payload : DiscordWebhook :=
        { Content := msg, Username := discord.Username,
          AvatarURL := discord.AvatarURL }
      let _ := deliver payload
      some ({ repo with LastCommit := c.SHA }, [payload])

/-- The repository loop of Go `checkRepositories`, threading the panic
possibility and accumulating the attempted webhook payloads. -/
def pollAll (fetch : String → String → String → Except String (List GitHubCommit))
    (deliver : DiscordWebhook → Except String Unit)
    (discord : DiscordConfig) :
    List Repository → Option (List Repository × List DiscordWebhook)
  | [] => some ([], [])
  | r :: rs =>
    match pollEntry fetch deliver discord r with
    | none => none
    | some (r2, pays) =>
      match pollAll fetch deliver discord rs with
      | none => none
      | some (rs2, rest) => some (r2 :: rs2, pays ++ rest)

/-- Go `checkRepositories` acting on the loaded configuration: poll every
entry and persist the updated collection once at the end; `none` models a
panic, after which nothing is persisted. -/
def checkRepositories (fetch : String → String → String → Except String (List GitHubCommit))
    (deliver : DiscordWebhook → Except String Unit)
    (config : Config) : Option Config :=
  match pollAll fetch deliver config.Discord config.Repositories with
  | none => none
  | some (repos, _) => some { config with Repositories := repos }

/-- The reference URLs of a configuration, in collection order. -/
def configURLs (config : Config) : List String :=
  config.Repositories.map (fun r => r.URL)

/-! The remaining definitions are concrete instances used to evaluate the
claims on the inputs named by the specification, plus the parsed form of the
built-in default template. -/

/-- A commit record with the given identifier and fixed display fields. -/
def sampleCommit (sha : String) : GitHubCommit :=
  { SHA := sha, AuthorName := "a", AuthorDate := "2024-01-01",
    Message := "m", HTMLURL := "https://example.com/c" }

/-- A webhook delivery stub that always succeeds. -/
def deliverOk : DiscordWebhook → Except String Unit :=
  fun _ => Except.ok ()

/-- The parsed form of the built-in default template. -/
def defaultNodes : List TNode :=
  [TNode.leaf (TLeaf.lit "🚨 **New Commits Detected!**\n\n**Repository**: "),
   TNode.leaf (TLeaf.field TField.owner),
   TNode.leaf (TLeaf.lit "/"),
   TNode.leaf (TLeaf.field TField.repo),
   TNode.leaf (TLeaf.lit "\n**Branch**: "),
   TNode.leaf (TLeaf.field TField.branch),
   TNode.leaf (TLeaf.lit "\n"),
   TNode.condNote [TLeaf.lit "**Note**: ", TLeaf.field TField.note],
   TNode.leaf (TLeaf.lit "\n**Repository URL**: "),
   TNode.leaf (TLeaf.field TField.url),
   TNode.leaf (TLeaf.lit "\n\n**New Commits**:\n"),
   TNode.leaf (TLeaf.field TField.content),
   TNode.leaf (TLeaf.lit "\n\n*Monitored by CSM - Commit Monitor*")]

/-- C1: the fetched newest-first listing of the specification's example. -/
def fetchC1 : String → String → String → Except String (List GitHubCommit) :=
  fun _ _ _ => Except.ok [sampleCommit "xyz789", sampleCommit "def456",
    sampleCommit "abc123", sampleCommit "old111"]

/-- C1: the stored entry of the specification's example. -/
def repoC1 : Repository :=
  { URL := "https://github.com/o/r", Owner := "o", Repo := "r", Branch := "main",
    LastCommit := "abc123", Note := "" }

/-- C1 witness: a fetch with one new commit whose identifier is long enough to
format. -/
def fetchC1w : String → String → String → Except String (List GitHubCommit) :=
  fun _ _ _ => Except.ok [sampleCommit "xyz78901"]

/-- C1 witness: the stored entry. -/
def repoC1w : Repository :=
  { repoC1 with LastCommit := "abc12345" }

/-- C1 witness: the poll outcome for the witness entry. -/
def resC1w : Repository × List DiscordWebhook :=
  (pollEntry fetchC1w deliverOk getDefaultDiscordConfig repoC1w).getD (repoC1w, [])

/-- C2: a Discord configuration whose template is malformed (an unclosed
action), so composing the notification fails. -/
def discordBadC2 : DiscordConfig :=
  { Template := "\x7b\x7b", Username := "u", AvatarURL := "a" }

/-- C2: a fetch with one new commit. -/
def fetchC2 : String → String → String → Except String (List GitHubCommit) :=
  fun _ _ _ => Except.ok [sampleCommit "xyz78901"]

/-- C2: the stored entry. -/
def repoC2 : Repository :=
  { repoC1 with LastCommit := "abc12345" }

/-- C3: a fetched page that never contains the stored identifier. -/
def commitsC3 : List GitHubCommit :=
  [sampleCommit "aaa11111", sampleCommit "bbb22222"]

/-- C3: the fetch returning that page. -/
def fetchC3 : String → String → String → Except String (List GitHubCommit) :=
  fun _ _ _ => Except.ok commitsC3

/-- C3: a stored entry whose cursor is absent from the page. -/
def repoC3 : Repository :=
  { repoC1 with LastCommit := "zzz99999" }

/-- C4: a collection already monitoring one URL. -/
def configC4 : Config :=
  { Repositories := [repoC1], Discord := getDefaultDiscordConfig }

/-- C4: a fetch with one commit. -/
def fetchC4 : String → String → String → Except String (List GitHubCommit) :=
  fun _ _ _ => Except.ok [sampleCommit "xyz78901"]

/-- C5: a fetch that always fails. -/
def fetchC5 : String → String → String → Except String (List GitHubCommit) :=
  fun _ _ _ => Except.error "boom"

/-- C5: the polled entry. -/
def repoC5 : Repository :=
  { repoC1 with LastCommit := "abc12345" }

/-- C7: a second entry with a distinct URL. -/
def repoC7 : Repository :=
  { repoC1 with URL := "https://github.com/o/r2", Repo := "r2" }

/-- C7: a collection with two distinct URLs. -/
def configC7 : Config :=
  { Repositories := [repoC1, repoC7], Discord := getDefaultDiscordConfig }

/-- C7: the collection after removing the first URL. -/
def configC7r : Config :=
  { Repositories := [repoC7], Discord := getDefaultDiscordConfig }

/-- C8: a Discord configuration with an empty template. -/
def discordC8 : DiscordConfig :=
  { Template := "", Username := "u", AvatarURL := "a" }

/-- C8: the changed entry. -/
def repoC8 : Repository :=
  { repoC1 with Note := "watch this" }

/-- C8: the new commits of the changed entry. -/
def commitsC8 : List GitHubCommit :=
  [sampleCommit "xyz78901"]

/-- C8: their formatted summary lines. -/
def linesC8 : List String :=
  (formatCommits commitsC8).getD []

/-- C10: a fetch returning an empty listing. -/
def fetchC10 : String → String → String → Except String (List GitHubCommit) :=
  fun _ _ _ => Except.ok []

/-- C10: the polled entry. -/
def repoC10 : Repository :=
  { repoC1 with LastCommit := "abc12345" }

/-- Spec-side predicate for the amended claim C6: after trimming one trailing
slash, the reference string CONTAINS — at any position, read through the list
append associativity — the pattern `github.com/<owner>/<repo>`, with owner
and repo non-empty segments free of slashes; nothing constrains what comes
before or after.  Compare with `parseGithubRepoURL`, which is translated from
the source's unanchored regexp search. -/
def containsRepoPattern (s : List Char) : Prop :=
  ∃ pre owner repo rest,
    s = pre ++ (("github.com/").data ++ (owner ++ ('/' :: (repo ++ rest))))
    ∧ owner ≠ [] ∧ repo ≠ []
    ∧ (∀ c ∈ owner, c ≠ '/') ∧ (∀ c ∈ repo, c ≠ '/')

/-! Helper lemmas. -/

lemma takeWhileAll {α : Type} (p : α → Bool) :
    ∀ l : List α, (∀ a ∈ l, p a = true) → l.takeWhile p = l := by
  intro l
  induction l with
  | nil => intro _; rfl
  | cons x xs ih =>
    intro h
    have hx : p x = true := h x (List.mem_cons_self x xs)
    rw [List.takeWhile_cons, if_pos hx, ih (fun a ha => h a (List.mem_cons_of_mem x ha))]

lemma memTakeWhile {α : Type} (p : α → Bool) :
    ∀ l : List α, ∀ a, a ∈ l.takeWhile p → p a = true := by
  intro l
  induction l with
  | nil => intro a ha; simp [List.takeWhile] at ha
  | cons x xs ih =>
    intro a ha
    rw [List.takeWhile_cons] at ha
    by_cases hx : p x = true
    · rw [if_pos hx] at ha
      rcases List.mem_cons.mp ha with h1 | h2
      · rw [h1]; exact hx
      · exact ih a h2
    · rw [if_neg hx] at ha
      exact absurd ha (List.not_mem_nil a)

lemma dropWhileHead {α : Type} (p : α → Bool) :
    ∀ l : List α, ∀ x xs, l.dropWhile p = x :: xs → p x = false := by
  intro l
  induction l with
  | nil => intro x xs h; simp [List.dropWhile] at h
  | cons y ys ih =>
    intro x xs h
    rw [List.dropWhile_cons] at h
    by_cases hy : p y = true
    · rw [if_pos hy] at h; exact ih x xs h
    · rw [if_neg hy] at h
      cases h
      simpa using hy

lemma takeWhileAppendStop {α : Type} (p : α → Bool) :
    ∀ (l1 : List α) (x : α) (l2 : List α), (∀ a ∈ l1, p a = true) → p x = false →
      (l1 ++ x :: l2).takeWhile p = l1 ∧ (l1 ++ x :: l2).dropWhile p = x :: l2 := by
  intro l1
  induction l1 with
  | nil =>
    intro x l2 _ hx
    constructor
    · simp [List.takeWhile_cons, hx]
    · simp [List.dropWhile_cons, hx]
  | cons y ys ih =>
    intro x l2 h hx
    have hy : p y = true := h y (List.mem_cons_self y ys)
    have ih2 := ih x l2 (fun a ha => h a (List.mem_cons_of_mem y ha)) hx
    constructor
    · simp [List.takeWhile_cons, hy]; exact ih2.1
    · simp [List.dropWhile_cons, hy]; exact ih2.2

lemma dropPatternIff : ∀ pat s r : List Char,
    dropPattern pat s = some r ↔ s = pat ++ r := by
  intro pat
  induction pat with
  | nil =>
    intro s r
    simp [dropPattern]
  | cons p ps ih =>
    intro s r
    cases s with
    | nil => simp [dropPattern]
    | cons c cs =>
      by_cases h : c = p
      · simp [dropPattern, h, ih]
      · simp [dropPattern, h]

lemma collectEqTakeWhile : ∀ (last : String) (commits : List GitHubCommit),
    collectNewCommits last commits = commits.takeWhile (fun c => decide (c.SHA ≠ last)) := by
  intro last commits
  induction commits with
  | nil => rfl
  | cons c cs ih =>
    unfold collectNewCommits
    rw [List.takeWhile_cons]
    by_cases h : c.SHA = last
    · rw [if_pos h, if_neg (by simp [h])]
    · rw [if_neg h, if_pos (by simp [h]), ih]

lemma formatLineNone : ∀ c : GitHubCommit,
    formatCommitLine c = none ↔ c.SHA.length < 8 := by
  intro c
  unfold formatCommitLine shaShort
  by_cases h : c.SHA.length < 8
  · simp [h]
  · simp [h]

lemma formatCommitsNone : ∀ cs : List GitHubCommit,
    formatCommits cs = none ↔ ∃ c ∈ cs, c.SHA.length < 8 := by
  intro cs
  induction cs with
  | nil => simp [formatCommits]
  | cons c rest ih =>
    unfold formatCommits
    cases hc : formatCommitLine c with
    | none =>
      constructor
      · intro _
        exact ⟨c, List.mem_cons_self c rest, (formatLineNone c).mp hc⟩
      · intro _
        rfl
    | some s =>
      have hcn : ¬ c.SHA.length < 8 := by
        intro hlt
        rw [(formatLineNone c).mpr hlt] at hc
        cases hc
      cases hr : formatCommits rest with
      | none =>
        constructor
        · intro _
          rcases ih.mp hr with ⟨d, hd, hds⟩
          exact ⟨d, List.mem_cons_of_mem c hd, hds⟩
        · intro _
          rfl
      | some ss =>
        constructor
        · intro h
          exact absurd h (by simp)
        · intro hex
          exfalso
          rcases hex with ⟨d, hd, hds⟩
          rcases List.mem_cons.mp hd with h1 | h2
          · rw [h1] at hds
            exact hcn hds
          · rw [ih.mpr ⟨d, h2, hds⟩] at hr
            cases hr

lemma pollEntryUrl : ∀ fetch deliver discord (r r2 : Repository) pays,
    pollEntry fetch deliver discord r = some (r2, pays) → r2.URL = r.URL := by
  intro fetch deliver discord r r2 pays h
  unfold pollEntry at h
  split at h
  · cases h
    rfl
  · cases h
    rfl
  · split at h
    · cases h
    · cases h
      rfl
    · cases h
      rfl

lemma pollAllUrls : ∀ fetch deliver discord (rs rs2 : List Repository) pays,
    pollAll fetch deliver discord rs = some (rs2, pays) →
    rs2.map (fun r => r.URL) = rs.map (fun r => r.URL) := by
  intro fetch deliver discord rs
  induction rs with
  | nil =>
    intro rs2 pays h
    cases h
    rfl
  | cons r rest ih =>
    intro rs2 pays h
    unfold pollAll at h
    cases he : pollEntry fetch deliver discord r with
    | none => rw [he] at h; cases h
    | some v =>
      obtain ⟨r2, ps⟩ := v
      rw [he] at h
      cases ha : pollAll fetch deliver discord rest with
      | none => rw [ha] at h; cases h
      | some w =>
        obtain ⟨rest2, ps2⟩ := w
        rw [ha] at h
        cases h
        simp only [List.map_cons]
        rw [pollEntryUrl fetch deliver discord r r2 ps he, ih rest2 ps2 ha]

lemma renderDefault : ∀ data : TemplateData,
    renderTemplate getDefaultDiscordConfig.Template data =
      Except.ok (evalNodes data defaultNodes) :=
  fun _ => rfl

lemma evalDefaultNeEmpty : ∀ data : TemplateData,
    evalNodes data defaultNodes ≠ "" := by
  intro data h
  have h2 : evalNodes data defaultNodes =
      "🚨 **New Commits Detected!**\n\n**Repository**: " ++
        evalNodes data (defaultNodes.drop 1) := rfl
  rw [h] at h2
  have h3 := congrArg String.data h2.symm
  rw [String.data_append] at h3
  rcases List.append_eq_nil.mp h3 with ⟨h4, _⟩
  exact absurd h4 (by decide)

/-! Claim theorems. -/

/-- C1: for a Commit entry the check walks the fetched newest-first list,
collecting every commit whose identifier differs from the stored
`LastCommit` and stopping at the first match; whenever the poll step
completes, the cursor is set to the newest collected commit's identifier; on
the specification's example (stored `abc123`, fetched `xyz789, def456,
abc123, old111`) exactly the first two commits are new, and after the cursor
advances to `xyz789` the same upstream list yields zero new commits. -/
theorem commit_cursor_walk_c1 :
    (∀ (last : String) (commits : List GitHubCommit),
      collectNewCommits last commits =
        commits.takeWhile (fun c => decide (c.SHA ≠ last)))
    ∧ checkForNewCommits fetchC1 repoC1 =
        Except.ok [sampleCommit "xyz789", sampleCommit "def456"]
    ∧ (∀ fetch deliver discord (repo r2 : Repository) pays c rest,
        checkForNewCommits fetch repo = Except.ok (c :: rest) →
        pollEntry fetch deliver discord repo = some (r2, pays) →
        r2 = { repo with LastCommit := c.SHA })
    ∧ checkForNewCommits fetchC1 { repoC1 with LastCommit := "xyz789" } =
        Except.ok [] := by
  refine ⟨collectEqTakeWhile, rfl, ?_, rfl⟩
  intro fetch deliver discord repo r2 pays c rest hchk hpoll
  unfold pollEntry at hpoll
  split at hpoll
  · rename_i e heq
    rw [hchk] at heq
    cases heq
  · rename_i heq
    rw [hchk] at heq
    cases heq
  · rename_i c2 rest2 heq
    rw [hchk] at heq
    injection heq with h1
    injection h1 with h2 h3
    subst h2
    subst h3
    split at hpoll
    · cases hpoll
    · cases hpoll
      rfl
    · cases hpoll
      rfl

/-- C1 witness: a concrete poll whose notification succeeds (an
eight-character identifier), showing the cursor advancing via the theorem. -/
theorem commit_cursor_walk_c1_witness :
    checkForNewCommits fetchC1w repoC1w = Except.ok [sampleCommit "xyz78901"]
    ∧ pollEntry fetchC1w deliverOk getDefaultDiscordConfig repoC1w =
        some (resC1w.1, resC1w.2)
    ∧ resC1w.1 = { repoC1w with LastCommit := "xyz78901" } :=
  ⟨rfl, rfl,
    commit_cursor_walk_c1.2.2.1 fetchC1w deliverOk getDefaultDiscordConfig
      repoC1w resC1w.1 resC1w.2 (sampleCommit "xyz78901") [] rfl rfl⟩

/-- C3: when the stored identifier never occurs in the fetched page, every
fetched commit — and only those — is reported as new, without an error. -/
theorem page_truncation_c3 : ∀ fetch (repo : Repository) commits,
    fetch repo.Owner repo.Repo repo.Branch = Except.ok commits →
    (∀ c ∈ commits, c.SHA ≠ repo.LastCommit) →
    checkForNewCommits fetch repo = Except.ok commits := by
  intro fetch repo commits hf hall
  simp only [checkForNewCommits, hf]
  by_cases hl : commits.length = 0
  · rw [if_pos hl, List.length_eq_zero.mp hl]
  · rw [if_neg hl, collectEqTakeWhile]
    rw [takeWhileAll _ commits (fun a ha => decide_eq_true (hall a ha))]

/-- C3 witness: a page of two commits, neither equal to the stored cursor. -/
theorem page_truncation_c3_witness :
    (∀ c ∈ commitsC3, c.SHA ≠ repoC3.LastCommit)
    ∧ checkForNewCommits fetchC3 repoC3 = Except.ok commitsC3 :=
  ⟨by decide, page_truncation_c3 fetchC3 repoC3 commitsC3 rfl (by decide)⟩

/-- C9: the commit summary slices the first eight characters of each
identifier with no length guard — composing the notification is well-defined
exactly when every new commit's identifier has length at least eight, and a
shorter identifier makes the slice out of bounds (a panic, modeled `none`). -/
theorem sha_slice_panic_c9 :
    (∀ c : GitHubCommit, formatCommitLine c = none ↔ c.SHA.length < 8)
    ∧ (∀ discord repo commits,
        composeNotification discord repo commits = none ↔
          ∃ c ∈ commits, c.SHA.length < 8) := by
  refine ⟨formatLineNone, ?_⟩
  intro discord repo commits
  unfold composeNotification
  cases hf : formatCommits commits with
  | none =>
    constructor
    · intro _
      exact (formatCommitsNone commits).mp hf
    · intro _
      rfl
  | some lines =>
    constructor
    · intro h
      simp at h
    · intro hex
      exfalso
      rw [(formatCommitsNone commits).mpr hex] at hf
      cases hf

/-- C10: a poll-time fetch returning an empty commit list reports zero new
commits without an error, sends nothing and leaves the entry unchanged; the
empty-history error is raised only by the add operation. -/
theorem empty_history_poll_c10 :
    (∀ fetch deliver discord (repo : Repository),
      fetch repo.Owner repo.Repo repo.Branch = Except.ok [] →
      checkForNewCommits fetch repo = Except.ok [] ∧
        pollEntry fetch deliver discord repo = some (repo, []))
    ∧ (∀ fetch (config : Config) url note owner reponame branch,
        (¬ ∃ r ∈ config.Repositories, r.URL = url) →
        parseGithubRepoURL url = Except.ok (owner, reponame, branch) →
        fetch owner reponame branch = Except.ok [] →
        addRepository fetch config url note =
          Except.error "no commits found in repository") := by
  constructor
  · intro fetch deliver discord repo hf
    have hchk : checkForNewCommits fetch repo = Except.ok [] := by
      unfold checkForNewCommits
      rw [hf]
      rfl
    refine ⟨hchk, ?_⟩
    unfold pollEntry
    rw [hchk]
  · intro fetch config url note owner reponame branch hdup hparse hfetch
    have hany : (config.Repositories.any (fun r => decide (r.URL = url))) = false := by
      cases hb : config.Repositories.any (fun r => decide (r.URL = url)) with
      | false => rfl
      | true =>
        exfalso
        rcases List.any_eq_true.mp hb with ⟨r, hr, hru⟩
        exact hdup ⟨r, hr, of_decide_eq_true hru⟩
    simp [addRepository, hany, hparse, hfetch]

/-- C10 witness: a concrete empty poll and a concrete empty-history add. -/
theorem empty_history_poll_c10_witness :
    fetchC10 repoC10.Owner repoC10.Repo repoC10.Branch = Except.ok []
    ∧ checkForNewCommits fetchC10 repoC10 = Except.ok []
    ∧ pollEntry fetchC10 deliverOk getDefaultDiscordConfig repoC10 =
        some (repoC10, [])
    ∧ addRepository fetchC10 configC4 "https://github.com/x/y" "" =
        Except.error "no commits found in repository" :=
  ⟨rfl,
    (empty_history_poll_c10.1 fetchC10 deliverOk getDefaultDiscordConfig
      repoC10 rfl).1,
    (empty_history_poll_c10.1 fetchC10 deliverOk getDefaultDiscordConfig
      repoC10 rfl).2,
    empty_history_poll_c10.2 fetchC10 configC4 "https://github.com/x/y" ""
      "x" "y" "main" (by decide) rfl rfl⟩

/-- C2 counterexample: with a malformed template, composing the notification
fails, yet the poll still advances the entry's stored `LastCommit` from
`abc12345` to the fetched `xyz78901` — the lifecycle transition is NOT
skipped, so the claim is false on this input. -/
theorem notify_failure_c2_counterexample :
    composeNotification discordBadC2 repoC2 [sampleCommit "xyz78901"] =
      some (Except.error "unclosed action in template")
    ∧ pollEntry fetchC2 deliverOk discordBadC2 repoC2 =
        some ({ repoC2 with LastCommit := "xyz78901" }, [])
    ∧ ({ repoC2 with LastCommit := "xyz78901" } : Repository).LastCommit ≠
        repoC2.LastCommit :=
  ⟨rfl, rfl, by decide⟩

/-- C2 amended: when composing the notification for a changed Commit entry
fails, the error is only logged — the entry's `LastCommit` is still advanced
to the newest fetched commit and nothing is delivered; likewise the delivery
outcome never influences the poll result.  The same commits are therefore not
re-notified on the next poll. -/
theorem notify_failure_c2 :
    (∀ fetch deliver discord (repo : Repository) c rest e,
      checkForNewCommits fetch repo = Except.ok (c :: rest) →
      composeNotification discord repo (c :: rest) = some (Except.error e) →
      pollEntry fetch deliver discord repo =
        some ({ repo with LastCommit := c.SHA }, []))
    ∧ (∀ fetch (deliver1 deliver2 : DiscordWebhook → Except String Unit)
        discord (repo : Repository),
        pollEntry fetch deliver1 discord repo =
          pollEntry fetch deliver2 discord repo) := by
  constructor
  · intro fetch deliver discord repo c rest e hchk hcomp
    unfold pollEntry
    rw [hchk]
    show (match composeNotification discord repo (c :: rest) with
      | none => none
      | some (Except.error _) => some ({ repo with LastCommit := c.SHA }, [])
      | some (Except.ok msg) =>
        let payload : DiscordWebhook :=
          { Content := msg, Username := discord.Username,
            AvatarURL := discord.AvatarURL }
        let _ := deliver payload
        some ({ repo with LastCommit := c.SHA }, [payload])) =
      some ({ repo with LastCommit := c.SHA }, [])
    rw [hcomp]
  · intro fetch deliver1 deliver2 discord repo
    unfold pollEntry
    cases checkForNewCommits fetch repo with
    | error e => rfl
    | ok commits =>
      cases commits with
      | nil => rfl
      | cons c rest =>
        cases composeNotification discord repo (c :: rest) with
        | none => rfl
        | some res =>
          cases res with
          | error e => rfl
          | ok msg => rfl

/-- C2 amended witness: the concrete malformed-template scenario, the cursor
advancing via the theorem. -/
theorem notify_failure_c2_witness :
    checkForNewCommits fetchC2 repoC2 = Except.ok [sampleCommit "xyz78901"]
    ∧ composeNotification discordBadC2 repoC2 [sampleCommit "xyz78901"] =
        some (Except.error "unclosed action in template")
    ∧ pollEntry fetchC2 deliverOk discordBadC2 repoC2 =
        some ({ repoC2 with LastCommit := "xyz78901" }, []) :=
  ⟨rfl, rfl,
    notify_failure_c2.1 fetchC2 deliverOk discordBadC2 repoC2
      (sampleCommit "xyz78901") [] "unclosed action in template" rfl rfl⟩

/-- C4: the add operation rejects an already-monitored URL with the
duplicate error, propagates the first failure of parsing, fetching or an
empty history without mutating the persisted collection, and on full success
appends exactly one new entry built from the parse and fetch results. -/
theorem add_atomic_c4 :
    (∀ fetch (config : Config) url note,
      (∃ r ∈ config.Repositories, r.URL = url) →
      addRepository fetch config url note =
        Except.error "repository already being monitored")
    ∧ (∀ fetch (config : Config) url note e,
        addRepository fetch config url note = Except.error e →
        persistedAfterAdd fetch config url note = config)
    ∧ (∀ fetch (config : Config) url note e,
        (¬ ∃ r ∈ config.Repositories, r.URL = url) →
        parseGithubRepoURL url = Except.error e →
        addRepository fetch config url note = Except.error e)
    ∧ (∀ fetch (config : Config) url note owner reponame branch e,
        (¬ ∃ r ∈ config.Repositories, r.URL = url) →
        parseGithubRepoURL url = Except.ok (owner, reponame, branch) →
        fetch owner reponame branch = Except.error e →
        addRepository fetch config url note = Except.error e)
    ∧ (∀ fetch (config : Config) url note owner reponame branch c cs,
        (¬ ∃ r ∈ config.Repositories, r.URL = url) →
        parseGithubRepoURL url = Except.ok (owner, reponame, branch) →
        fetch owner reponame branch = Except.ok (c :: cs) →
        addRepository fetch config url note =
          Except.ok { config with Repositories := config.Repositories ++
            [{ URL := url, Owner := owner, Repo := reponame, Branch := branch,
               LastCommit := c.SHA, Note := note }] }) := by
  have hanyFalse : ∀ (config : Config) url,
      (¬ ∃ r ∈ config.Repositories, r.URL = url) →
      (config.Repositories.any (fun r => decide (r.URL = url))) = false := by
    intro config url hdup
    cases hb : config.Repositories.any (fun r => decide (r.URL = url)) with
    | false => rfl
    | true =>
      exfalso
      rcases List.any_eq_true.mp hb with ⟨r, hr, hru⟩
      exact hdup ⟨r, hr, of_decide_eq_true hru⟩
  refine ⟨?_, ?_, ?_, ?_, ?_⟩
  · intro fetch config url note hdup
    rcases hdup with ⟨r, hr, hru⟩
    have hany : (config.Repositories.any (fun r => decide (r.URL = url))) = true :=
      List.any_eq_true.mpr ⟨r, hr, decide_eq_true hru⟩
    simp [addRepository, hany]
  · intro fetch config url note e herr
    unfold persistedAfterAdd
    rw [herr]
  · intro fetch config url note e hdup hparse
    simp [addRepository, hanyFalse config url hdup, hparse]
  · intro fetch config url note owner reponame branch e hdup hparse hfetch
    simp [addRepository, hanyFalse config url hdup, hparse, hfetch]
  · intro fetch config url note owner reponame branch c cs hdup hparse hfetch
    simp [addRepository, hanyFalse config url hdup, hparse, hfetch]

/-- C4 witness: the duplicate rejection and its atomicity on the concrete
one-entry collection, and a concrete successful append. -/
theorem add_atomic_c4_witness :
    (∃ r ∈ configC4.Repositories, r.URL = "https://github.com/o/r")
    ∧ addRepository fetchC4 configC4 "https://github.com/o/r" "" =
        Except.error "repository already being monitored"
    ∧ persistedAfterAdd fetchC4 configC4 "https://github.com/o/r" "" = configC4
    ∧ addRepository fetchC4 configC4 "https://github.com/x/y" "n" =
        Except.ok { configC4 with Repositories := configC4.Repositories ++
          [{ URL := "https://github.com/x/y", Owner := "x", Repo := "y",
             Branch := "main", LastCommit := "xyz78901", Note := "n" }] } := by
  have h1 := add_atomic_c4.1 fetchC4 configC4 "https://github.com/o/r" ""
    ⟨repoC1, by decide, by decide⟩
  refine ⟨⟨repoC1, by decide, by decide⟩, h1,
    add_atomic_c4.2.1 fetchC4 configC4 "https://github.com/o/r" "" _ h1, ?_⟩
  exact add_atomic_c4.2.2.2.2 fetchC4 configC4 "https://github.com/x/y" "n"
    "x" "y" "main" (sampleCommit "xyz78901") [] (by decide) rfl rfl

/-- C5: a fetch failure for one entry leaves that entry untouched with no
payload sent, and the batch result is the independent combination of the
entries before and after it — no single entry's failure aborts the batch. -/
theorem poll_isolation_c5 : ∀ fetch deliver discord e (r : Repository) rs1 rs2,
    fetch r.Owner r.Repo r.Branch = Except.error e →
    pollEntry fetch deliver discord r = some (r, [])
    ∧ pollAll fetch deliver discord (rs1 ++ r :: rs2) =
        (pollAll fetch deliver discord rs1).bind (fun x =>
          (pollAll fetch deliver discord rs2).map (fun y =>
            (x.1 ++ r :: y.1, x.2 ++ y.2))) := by
  intro fetch deliver discord e r rs1 rs2 hf
  have hentry : pollEntry fetch deliver discord r = some (r, []) := by
    have hchk : checkForNewCommits fetch r = Except.error e := by
      unfold checkForNewCommits
      rw [hf]
    unfold pollEntry
    rw [hchk]
  refine ⟨hentry, ?_⟩
  induction rs1 with
  | nil =>
    simp only [List.nil_append, pollAll, hentry]
    cases pollAll fetch deliver discord rs2 with
    | none => rfl
    | some w =>
      obtain ⟨ws, wp⟩ := w
      simp [pollAll]
  | cons a rest ih =>
    simp only [List.cons_append, pollAll, List.append_eq]
    cases pollEntry fetch deliver discord a with
    | none => rfl
    | some v =>
      obtain ⟨a2, ap⟩ := v
      rw [ih]
      cases h1 : pollAll fetch deliver discord rest with
      | none => rfl
      | some x =>
        obtain ⟨xs, xp⟩ := x
        cases h2 : pollAll fetch deliver discord rs2 with
        | none => rfl
        | some y =>
          obtain ⟨ys, yp⟩ := y
          simp [pollAll, h1, h2]

/-- C5 witness: a one-entry batch whose only entry fails to fetch. -/
theorem poll_isolation_c5_witness :
    fetchC5 repoC5.Owner repoC5.Repo repoC5.Branch = Except.error "boom"
    ∧ pollEntry fetchC5 deliverOk getDefaultDiscordConfig repoC5 =
        some (repoC5, [])
    ∧ pollAll fetchC5 deliverOk getDefaultDiscordConfig [repoC5] =
        some ([repoC5], []) := by
  have h := poll_isolation_c5 fetchC5 deliverOk getDefaultDiscordConfig "boom"
    repoC5 [] [] rfl
  refine ⟨rfl, h.1, ?_⟩
  rw [show ([repoC5] : List Repository) = [] ++ repoC5 :: [] from rfl, h.2]
  rfl

/-- C7: starting from a collection whose reference URLs are pairwise
distinct, each of add (on success), remove (on success) and a completed poll
cycle leaves the collection with pairwise-distinct URLs. -/
theorem url_uniqueness_c7 :
    (∀ fetch (config : Config) url note config2,
      (configURLs config).Nodup →
      addRepository fetch config url note = Except.ok config2 →
      (configURLs config2).Nodup)
    ∧ (∀ (config : Config) url config2,
      (configURLs config).Nodup →
      removeRepository config url = Except.ok config2 →
      (configURLs config2).Nodup)
    ∧ (∀ fetch deliver (config : Config) config2,
      (configURLs config).Nodup →
      checkRepositories fetch deliver config = some config2 →
      (configURLs config2).Nodup) := by
  refine ⟨?_, ?_, ?_⟩
  · intro fetch config url note config2 hnd hok
    unfold addRepository at hok
    split at hok
    · cases hok
    · rename_i hG
      split at hok
      · cases hok
      · split at hok
        · cases hok
        · split at hok
          · cases hok
          · cases hok
            have hurl : url ∉ configURLs config := by
              intro hmem
              rcases List.mem_map.mp hmem with ⟨r, hr, hru⟩
              exact hG (List.any_eq_true.mpr ⟨r, hr, decide_eq_true hru⟩)
            unfold configURLs at hurl hnd ⊢
            simp only [List.map_append, List.map_cons, List.map_nil]
            rw [List.nodup_append]
            refine ⟨hnd, List.nodup_singleton _, ?_⟩
            intro x hx hx2
            rw [List.mem_singleton.mp hx2] at hx
            exact hurl hx
  · intro config url config2 hnd hrem
    simp only [removeRepository] at hrem
    split at hrem
    · cases hrem
    · cases hrem
      unfold configURLs at hnd ⊢
      exact List.Nodup.sublist
        (List.Sublist.map _ (List.filter_sublist _)) hnd
  · intro fetch deliver config config2 hnd hchk
    unfold checkRepositories at hchk
    cases hp : pollAll fetch deliver config.Discord config.Repositories with
    | none => rw [hp] at hchk; cases hchk
    | some w =>
      obtain ⟨repos, pays⟩ := w
      rw [hp] at hchk
      cases hchk
      have hu := pollAllUrls fetch deliver config.Discord
        config.Repositories repos pays hp
      unfold configURLs at hnd ⊢
      simp only []
      rw [hu]
      exact hnd

/-- C7 witness: a two-entry collection with distinct URLs, polled (with a
failing fetch) and with one entry removed, stays duplicate-free. -/
theorem url_uniqueness_c7_witness :
    (configURLs configC7).Nodup
    ∧ removeRepository configC7 "https://github.com/o/r" = Except.ok configC7r
    ∧ (configURLs configC7r).Nodup
    ∧ checkRepositories fetchC5 deliverOk configC7 = some configC7
    ∧ (configURLs configC7).Nodup :=
  ⟨by decide, rfl,
    url_uniqueness_c7.2.1 configC7 "https://github.com/o/r" configC7r
      (by decide) rfl,
    rfl,
    url_uniqueness_c7.2.2 fetchC5 deliverOk configC7 configC7 (by decide) rfl⟩

/-- C8: with an empty configured template the notification is rendered from
the built-in default template, the rendering succeeds, and the message is
non-empty. -/
theorem default_template_c8 : ∀ (discord : DiscordConfig) (repo : Repository)
    commits lines,
    discord.Template = "" →
    formatCommits commits = some lines →
    ∃ msg, composeNotification discord repo commits = some (Except.ok msg)
      ∧ msg ≠ ""
      ∧ renderTemplate getDefaultDiscordConfig.Template
          (buildTemplateData repo lines) = Except.ok msg := by
  intro discord repo commits lines hT hF
  refine ⟨evalNodes (buildTemplateData repo lines) defaultNodes, ?_,
    evalDefaultNeEmpty _, renderDefault _⟩
  have hc : composeNotification discord repo commits =
      some (renderTemplate getDefaultDiscordConfig.Template
        (buildTemplateData repo lines)) := by
    unfold composeNotification
    rw [hT, hF]
    simp
  rw [hc, renderDefault]

/-- C8 witness: a concrete entry with a note and an empty template. -/
theorem default_template_c8_witness :
    discordC8.Template = ""
    ∧ formatCommits commitsC8 = some linesC8
    ∧ ∃ msg, composeNotification discordC8 repoC8 commitsC8 =
          some (Except.ok msg)
        ∧ msg ≠ ""
        ∧ renderTemplate getDefaultDiscordConfig.Template
            (buildTemplateData repoC8 linesC8) = Except.ok msg :=
  ⟨rfl, rfl, default_template_c8 discordC8 repoC8 commitsC8 linesC8 rfl rfl⟩

lemma notSlashIff : ∀ c : Char, notSlash c = true ↔ c ≠ '/' := by
  intro c
  simp [notSlash]

lemma matchGithubAtIsSome : ∀ s : List Char,
    (matchGithubAt s).isSome = true ↔
      ∃ owner repo rest,
        s = ("github.com/").data ++ (owner ++ ('/' :: (repo ++ rest)))
        ∧ owner ≠ [] ∧ repo ≠ []
        ∧ (∀ c ∈ owner, c ≠ '/') ∧ (∀ c ∈ repo, c ≠ '/') := by
  intro s
  constructor
  · intro h
    unfold matchGithubAt at h
    cases hd : dropPattern ("github.com/").data s with
    | none => rw [hd] at h; simp at h
    | some rest0 =>
      rw [hd] at h
      replace h : (matchAfterPat rest0).isSome = true := h
      have hs : s = ("github.com/").data ++ rest0 := (dropPatternIff _ s rest0).mp hd
      unfold matchAfterPat at h
      by_cases ho : rest0.takeWhile notSlash = []
      · rw [if_pos ho] at h; simp at h
      · rw [if_neg ho] at h
        cases hdw : rest0.dropWhile notSlash with
        | nil => rw [hdw] at h; simp [matchTail] at h
        | cons c2 rest3 =>
          have hc2 : c2 = '/' := by
            have := dropWhileHead notSlash rest0 c2 rest3 hdw
            simpa [notSlash] using this
          subst hc2
          rw [hdw] at h
          replace h : (if rest3.takeWhile notSlash = [] then none
            else some (rest0.takeWhile notSlash, rest3.takeWhile notSlash,
              parseBranchOpt (rest3.dropWhile notSlash))).isSome = true := h
          by_cases hr : rest3.takeWhile notSlash = []
          · rw [if_pos hr] at h; simp at h
          · refine ⟨rest0.takeWhile notSlash, rest3.takeWhile notSlash,
              rest3.dropWhile notSlash, ?_, ho, hr, ?_, ?_⟩
            · rw [hs]
              congr 1
              calc rest0 = rest0.takeWhile notSlash ++ rest0.dropWhile notSlash :=
                    (List.takeWhile_append_dropWhile notSlash rest0).symm
                _ = rest0.takeWhile notSlash ++ ('/' :: rest3) := by rw [hdw]
                _ = rest0.takeWhile notSlash ++
                      ('/' :: (rest3.takeWhile notSlash ++ rest3.dropWhile notSlash)) := by
                    rw [List.takeWhile_append_dropWhile notSlash rest3]
            · intro c hc
              exact (notSlashIff c).mp (memTakeWhile notSlash rest0 c hc)
            · intro c hc
              exact (notSlashIff c).mp (memTakeWhile notSlash rest3 c hc)
  · rintro ⟨owner, repo, rest, hs, ho, hr, hof, hrf⟩
    subst hs
    unfold matchGithubAt
    rw [(dropPatternIff ("github.com/").data _ _).mpr rfl]
    show (matchAfterPat (owner ++ ('/' :: (repo ++ rest)))).isSome = true
    have howner : ∀ a ∈ owner, notSlash a = true :=
      fun a ha => (notSlashIff a).mpr (hof a ha)
    have hstop : notSlash '/' = false := by simp [notSlash]
    have htw := takeWhileAppendStop notSlash owner '/' (repo ++ rest) howner hstop
    unfold matchAfterPat
    rw [htw.1, htw.2, if_neg ho]
    show (if (repo ++ rest).takeWhile notSlash = [] then none
      else some (owner, (repo ++ rest).takeWhile notSlash,
        parseBranchOpt ((repo ++ rest).dropWhile notSlash))).isSome = true
    cases hrc : repo with
    | nil => exact absurd hrc hr
    | cons rc rtl =>
      have hrcs : notSlash rc = true := by
        apply (notSlashIff rc).mpr
        apply hrf
        rw [hrc]
        exact List.mem_cons_self rc rtl
      have htwc : ((rc :: rtl) ++ rest).takeWhile notSlash =
          rc :: ((rtl ++ rest).takeWhile notSlash) := by
        rw [List.cons_append, List.takeWhile_cons, if_pos hrcs]
      rw [htwc, if_neg (by simp)]
      rfl

lemma findGithubMatchIsSome : ∀ s : List Char,
    (findGithubMatch s).isSome = true ↔ containsRepoPattern s := by
  intro s
  induction s with
  | nil =>
    constructor
    · intro h
      simp [findGithubMatch] at h
    · rintro ⟨pre, owner, repo, rest, hs, _, _, _, _⟩
      exfalso
      have hlen := congrArg List.length hs
      have hpat : (("github.com/").data).length = 11 := rfl
      simp [List.length_append, hpat] at hlen
      omega
  | cons c cs ih =>
    unfold findGithubMatch
    cases hm : matchGithubAt (c :: cs) with
    | some r =>
      constructor
      · intro _
        have hsome : (matchGithubAt (c :: cs)).isSome = true := by
          rw [hm]
          rfl
        rcases (matchGithubAtIsSome (c :: cs)).mp hsome with
          ⟨owner, repo, rest, hs, ho, hr, hof, hrf⟩
        exact ⟨[], owner, repo, rest, by rw [hs]; rfl, ho, hr, hof, hrf⟩
      · intro _
        rfl
    | none =>
      rw [ih]
      constructor
      · rintro ⟨pre, owner, repo, rest, hs, ho, hr, hof, hrf⟩
        exact ⟨c :: pre, owner, repo, rest, by rw [hs]; rfl, ho, hr, hof, hrf⟩
      · rintro ⟨pre, owner, repo, rest, hs, ho, hr, hof, hrf⟩
        cases pre with
        | nil =>
          exfalso
          have hsome : (matchGithubAt (c :: cs)).isSome = true :=
            (matchGithubAtIsSome (c :: cs)).mpr
              ⟨owner, repo, rest, by simpa using hs, ho, hr, hof, hrf⟩
          rw [hm] at hsome
          simp at hsome
        | cons c2 pre2 =>
          rw [List.cons_append] at hs
          injection hs with h1 h2
          exact ⟨pre2, owner, repo, rest, h2, ho, hr, hof, hrf⟩

/-- C6 counterexample: `https://github.com/a/b/c` is NOT of the claimed form
`<host>/<owner>/<repo>[/tree/<branch>]` (an extra path segment follows the
repo), yet parsing succeeds; and `gitlab.com/a/b` IS of the claimed form (with
host `gitlab.com`), yet parsing fails — the regexp is an unanchored search
pinned to the literal host `github.com`. -/
theorem url_form_c6_counterexample :
    parseGithubRepoURL "https://github.com/a/b/c" = Except.ok ("a", "b", "main")
    ∧ parseGithubRepoURL "gitlab.com/a/b" =
        Except.error "invalid GitHub repository URL format" :=
  ⟨rfl, rfl⟩

/-- C6 amended: parsing succeeds exactly when, after removing one trailing
slash, the string CONTAINS `github.com/<owner>/<repo>` anywhere, with owner
and repo non-empty slash-free segments; on the canonical URLs the branch is
taken from an immediately following `/tree/<branch>` segment and defaults to
main when that is absent, with a trailing slash tolerated; anything else
fails with the invalid-reference error. -/
theorem url_form_c6 :
    (∀ url, (∃ v, parseGithubRepoURL url = Except.ok v) ↔
      containsRepoPattern (trimSlash url).data)
    ∧ (∀ url, (¬ containsRepoPattern (trimSlash url).data) →
      parseGithubRepoURL url = Except.error "invalid GitHub repository URL format")
    ∧ parseGithubRepoURL "https://github.com/o/r" = Except.ok ("o", "r", "main")
    ∧ parseGithubRepoURL "https://github.com/o/r/" = Except.ok ("o", "r", "main")
    ∧ parseGithubRepoURL "https://github.com/o/r/tree/dev" =
        Except.ok ("o", "r", "dev")
    ∧ parseGithubRepoURL "https://github.com/o/r/tree/dev/sub" =
        Except.ok ("o", "r", "dev") := by
  have hiff : ∀ url, (∃ v, parseGithubRepoURL url = Except.ok v) ↔
      containsRepoPattern (trimSlash url).data := by
    intro url
    rw [← findGithubMatchIsSome]
    unfold parseGithubRepoURL
    cases hf : findGithubMatch (trimSlash url).data with
    | none =>
      constructor
      · rintro ⟨v, hv⟩
        cases hv
      · intro hsome
        simp at hsome
    | some r =>
      obtain ⟨owner, repo, branchOpt⟩ := r
      constructor
      · intro _
        rfl
      · intro _
        exact ⟨_, rfl⟩
  refine ⟨hiff, ?_, rfl, rfl, rfl, rfl⟩
  intro url hno
  cases hp : parseGithubRepoURL url with
  | error e =>
    have : e = "invalid GitHub repository URL format" := by
      unfold parseGithubRepoURL at hp
      cases hf : findGithubMatch (trimSlash url).data with
      | none =>
        rw [hf] at hp
        cases hp
        rfl
      | some r =>
        obtain ⟨owner, repo, branchOpt⟩ := r
        rw [hf] at hp
        cases hp
    rw [this]
  | ok v =>
    exact absurd ((hiff url).mp ⟨v, hp⟩) hno

/-- C6 witness: a URL of the claimed generic form with a non-github host does
not contain the pattern, and parsing it fails with the invalid-reference
error. -/
theorem url_form_c6_witness :
    (¬ containsRepoPattern (trimSlash "gitlab.com/a/b").data)
    ∧ parseGithubRepoURL "gitlab.com/a/b" =
        Except.error "invalid GitHub repository URL format" := by
  have hno : ¬ containsRepoPattern (trimSlash "gitlab.com/a/b").data := by
    intro hc
    rcases (url_form_c6.1 "gitlab.com/a/b").mpr hc with ⟨v, hv⟩
    rw [show parseGithubRepoURL "gitlab.com/a/b" =
      Except.error "invalid GitHub repository URL format" from rfl] at hv
    cases hv
  exact ⟨hno, url_form_c6.2.1 "gitlab.com/a/b" hno⟩
